import Mathlib

/-!
Verification of `github.py` (zvibo/colab_utils): a one-shot SSH-provisioning
utility `secret_to_ssh_key` that fetches a private key from the Colab
`userdata` secrets provider, normalizes it, writes it under `~/.ssh` with
restrictive permissions, registers the github.com fingerprint, appends a
client-config stanza, verifies the key with ssh-keygen, and loads it into a
freshly started ssh-agent.

The embedding models Python string operations (`splitlines`, `strip`,
`join`, substring containment, `split`) on `List Char`, and the provisioning
workflow as an explicit state-passing function over a `SysState` (filesystem
contents, file modes, directories, process environment, invocation flags)
driven by a `World` of external outcomes (secrets-provider result, whether
each filesystem primitive raises, exit status and stdout of each invoked
utility).  A propagated Python exception is an `Except.error`; a normal
`return b` is `Except.ok b`.
-/

/-- Characters for which Python `str.isspace()` is true (whitespace stripped
by `str.strip()`): `\t \n \v \f \r`, `\x1c`–`\x1f`, space, `\x85`, `\xa0`,
and the Unicode space separators. -/
def pyIsSpace (c : Char) : Bool :=
  let n := c.toNat
  (9 ≤ n && n ≤ 13) || (28 ≤ n && n ≤ 31) || n == 32 || n == 133 || n == 160 ||
  n == 0x1680 || (0x2000 ≤ n && n ≤ 0x200A) || n == 0x2028 || n == 0x2029 ||
  n == 0x202F || n == 0x205F || n == 0x3000

/-- Characters at which Python `str.splitlines()` breaks a line:
`\n \v \f \r`, `\x1c`–`\x1e`, `\x85`, ` `, ` ` (with `\r\n`
counting as a single break). -/
def isLineBreak (c : Char) : Bool :=
  let n := c.toNat
  (10 ≤ n && n ≤ 13) || (28 ≤ n && n ≤ 30) || n == 133 || n == 0x2028 || n == 0x2029

/-- Python `str.splitlines()` on the character list of a string: split at
line-break characters, treating `\r\n` as one break; a trailing break does
not produce a final empty line; the empty string yields no lines. -/
def splitlines : List Char → List (List Char)
  | [] => []
  | [c] => if isLineBreak c then [[]] else [[c]]
  | c :: d :: rest =>
    if c = '\r' ∧ d = '\n' then [] :: splitlines rest
    else if isLineBreak c then [] :: splitlines (d :: rest)
    else
      match splitlines (d :: rest) with
      | [] => [[c]]
      | l :: ls => (c :: l) :: ls

/-- Python `str.lstrip()` (default whitespace). -/
def pyLStrip (l : List Char) : List Char := l.dropWhile pyIsSpace

/-- Python `str.rstrip()` (default whitespace). -/
def pyRStrip (l : List Char) : List Char := (l.reverse.dropWhile pyIsSpace).reverse

/-- Python `str.strip()` (default whitespace): strip both ends. -/
def pyStrip (l : List Char) : List Char := pyRStrip (pyLStrip l)

/-- Python `"\n".join(...)` on character lists. -/
def joinNL : List (List Char) → List Char
  | [] => []
  | [t] => t
  | t :: u :: ts => t ++ '\n' :: joinNL (u :: ts)

/-- `clean_ssh_key` from github.py (lines 10–11):
`"\n".join([l.strip() for l in s.splitlines()]).strip() + "\n"`. -/
def clean_ssh_key (s : String) : String :=
  ⟨pyStrip (joinNL ((splitlines s.data).map pyStrip)) ++ ['\n']⟩

/-- `str.strip()` lifted to `String`. -/
def strStrip (s : String) : String := ⟨pyStrip s.data⟩

/-- `str.splitlines()` lifted to `String`. -/
def strSplitlines (s : String) : List String := (splitlines s.data).map fun l => ⟨l⟩

/-- `needle` occurs as a contiguous sublist of `hay`. -/
def listInfix (needle hay : List Char) : Bool :=
  match hay with
  | [] => needle.isEmpty
  | _ :: t => needle.isPrefixOf hay || listInfix needle t

/-- Python's substring test `needle in hay`. -/
def strContains (hay needle : String) : Bool := listInfix needle.data hay.data

-- Sanity checks of the Python string model.
example : clean_ssh_key "" = "\n" := by decide
example : clean_ssh_key "  a \n b " = "a\nb\n" := by decide
example : clean_ssh_key " \nkey" = "key\n" := by decide
example : strSplitlines "a\r\nb\rc" = ["a", "b", "c"] := by decide
example : strContains "xx github.com yy" "github.com" = true := by decide
example : strContains "github.co m" "github.com" = false := by decide

/-! ### Agent-output parsing (github.py lines 100–105)

For each line of the `ssh-agent -s` output, the code runs
`if '=' in line and ';' in line:` then
`parts = line.split(';')[0].split('=', 1)` and, `if len(parts) == 2`,
sets `os.environ[parts[0]] = parts[1]`. -/

/-- Pointwise update of a string-keyed partial map. -/
def updF {α : Type} (f : String → Option α) (k : String) (v : α) :
    String → Option α :=
  fun x => if x = k then some v else f x

/-- Pointwise update of a string-keyed boolean map. -/
def updB (f : String → Bool) (k : String) : String → Bool :=
  fun x => if x = k then true else f x

/-- Python `line.split(';')[0]`: the part before the first `;`
(the whole line when there is no `;`). -/
def splitSemiHead (l : List Char) : List Char := l.takeWhile (fun c => c ≠ ';')

/-- Python `x.split('=', 1)`: split at the first `=` into two parts, or the
singleton list when there is no `=`. -/
def splitEqOnce (l : List Char) : List (List Char) :=
  if l.contains '=' then
    [l.takeWhile (fun c => c ≠ '='), (l.dropWhile (fun c => c ≠ '=')).tail]
  else [l]

/-- Processing of one agent-output line (github.py lines 101–105). -/
def applyAgentLine (env : String → Option String) (line : String) :
    String → Option String :=
  if strContains line "=" && strContains line ";" then
    match splitEqOnce (splitSemiHead line.data) with
    | [k, v] => updF env ⟨k⟩ ⟨v⟩
    | _ => env
  else env

/-- The `for line in agent_output_lines` loop (github.py lines 100–105). -/
def applyAgentLines (env : String → Option String) :
    List String → (String → Option String)
  | [] => env
  | l :: ls => applyAgentLines (applyAgentLine env l) ls

example :
    applyAgentLines (fun _ => none)
      ["SSH_AUTH_SOCK=/tmp/sock;export SSH_AUTH_SOCK;", "SSH_AGENT_PID=1234;"]
      "SSH_AUTH_SOCK" = some "/tmp/sock" := by decide

/-! ### The provisioning workflow `secret_to_ssh_key` (github.py lines 5–124)

The workflow is a linear pipeline over a mutable system state, driven by a
`World` describing the outcomes of all external interactions.  Fallible
filesystem primitives that the Python code does *not* wrap in `try` blocks
(`os.makedirs`, the key-file `open`/`write`, `os.chmod`) propagate their
exception (`Except.error`); everything else is caught by the code's
`try`/`except` blocks and converted into `return False`. -/

/-- System state visible to the workflow: file contents, file/dir modes,
existing directories, process environment, secrets-provider requests made,
and which external utility has been invoked. -/
structure SysState where
  files : String → Option String
  fileMode : String → Option Nat
  dirs : String → Bool
  env : String → Option String
  secretRequests : List String
  keyscanInvoked : Bool
  keygenInvoked : Bool
  agentInvoked : Bool
  addInvoked : Bool

/-- Outcomes of every external interaction of a run: the home directory,
the secrets provider, whether each unguarded filesystem primitive raises,
whether each guarded block's filesystem work raises, and exit status plus
captured stdout of each invoked utility. -/
structure World where
  home : String
  userdata : String → Except String String
  makedirsRaises : Bool
  keyWriteRaises : Bool
  chmodRaises : Bool
  knownHostsRaises : Bool
  keyscanStdout : String
  keyscanOk : Bool
  configRaises : Bool
  keygenOk : Bool
  agentOk : Bool
  agentStdout : String
  sshAddOk : Bool

/-- `os.path.expanduser('~/.ssh')` (github.py line 26). -/
def sshDir (home : String) : String := home ++ "/.ssh"

/-- `os.path.join(ssh_dir, 'id_rsa_github')` (github.py line 30). -/
def keyPath (home : String) : String := sshDir home ++ "/id_rsa_github"

/-- `os.path.join(ssh_dir, 'known_hosts')` (github.py line 39). -/
def knownHostsPath (home : String) : String := sshDir home ++ "/known_hosts"

/-- `os.path.join(ssh_dir, 'config')` (github.py line 54). -/
def configPath (home : String) : String := sshDir home ++ "/config"

/-- The config stanza f-string (github.py lines 55–60). -/
def configContent (kp : String) : String :=
  "\nHost github.com\n    HostName github.com\n    IdentityFile " ++ kp ++
  "\n    User git\n"

/-- Step 7 (github.py lines 93–121): start `ssh-agent -s`, parse its stdout
into environment assignments, then run `ssh-add` on the key.  A failure of
either utility is caught and yields `False`. -/
def step7Agent (w : World) (s : SysState) : Except String Bool × SysState :=
  let s1 := { s with agentInvoked := true }
  if w.agentOk then
    let s2 := { s1 with env := applyAgentLines s1.env (strSplitlines w.agentStdout) }
    let s3 := { s2 with addInvoked := true }
    if w.sshAddOk then (Except.ok true, s3) else (Except.ok false, s3)
  else (Except.ok false, s1)

/-- Step 6 (github.py lines 74–91): verify the key with
`ssh-keygen -l -f key_path`; non-zero exit is caught and yields `False`. -/
def step6Keygen (w : World) (s : SysState) : Except String Bool × SysState :=
  let s1 := { s with keygenInvoked := true }
  if w.keygenOk then step7Agent w s1 else (Except.ok false, s1)

/-- Step 5 (github.py lines 53–71): open `config` with `a+` (creating it if
absent), read it, and append the stanza only when `'Host github.com'` is not
a substring of the current contents. -/
def step5Config (w : World) (s : SysState) : Except String Bool × SysState :=
  if w.configRaises then (Except.ok false, s) else
  let p := configPath w.home
  let s1 := match s.files p with
    | some _ => s
    | none => { s with files := updF s.files p "" }
  let current := (s1.files p).getD ""
  let s2 := if strContains current "Host github.com" then s1
    else { s1 with files := updF s1.files p (current ++ configContent (keyPath w.home)) }
  step6Keygen w s2

/-- Step 4 (github.py lines 37–51): open `known_hosts` with `a+` (creating
it if absent), read it, and when `'github.com'` is not a substring of the
contents run `ssh-keyscan -H github.com` with stdout appended to the file;
a non-zero exit of the scan is caught and yields `False`. -/
def step4KnownHosts (w : World) (s : SysState) : Except String Bool × SysState :=
  if w.knownHostsRaises then (Except.ok false, s) else
  let p := knownHostsPath w.home
  let s1 := match s.files p with
    | some _ => s
    | none => { s with files := updF s.files p "" }
  let contents := (s1.files p).getD ""
  if strContains contents "github.com" then step5Config w s1
  else
    let s2 := { s1 with keyscanInvoked := true,
                        files := updF s1.files p (contents ++ w.keyscanStdout) }
    if w.keyscanOk then step5Config w s2 else (Except.ok false, s2)

/-- `secret_to_ssh_key(secret_name='id_rsa_github')` (github.py lines 5–124).
The `secret_name` argument is accepted but never used by the code: the
fetch at line 14 is `userdata.get('id_rsa_github')` with a literal name.
Steps 1–3 (fetch+clean, `os.makedirs`, key write, `os.chmod`) are inline;
`os.makedirs`, the key write and `os.chmod` are outside every `try` block,
so a failure there propagates as `Except.error`. -/
def secret_to_ssh_key (secret_name : String) (w : World) (s : SysState) :
    Except String Bool × SysState :=
  let s0 := { s with secretRequests := s.secretRequests ++ ["id_rsa_github"] }
  match w.userdata "id_rsa_github" with
  | Except.error _ => (Except.ok false, s0)
  | Except.ok raw =>
    let github_ssh_key := clean_ssh_key raw
    if github_ssh_key = "" then (Except.ok false, s0) else
    if w.makedirsRaises then (Except.error "OSError: makedirs", s0) else
    let s1 := if s0.dirs (sshDir w.home) then s0
      else { s0 with dirs := updB s0.dirs (sshDir w.home),
                     fileMode := updF s0.fileMode (sshDir w.home) 0o700 }
    if w.keyWriteRaises then (Except.error "OSError: key write", s1) else
    let s2 := { s1 with files := updF s1.files (keyPath w.home) github_ssh_key }
    if w.chmodRaises then (Except.error "OSError: chmod", s2) else
    let s3 := { s2 with fileMode := updF s2.fileMode (keyPath w.home) 0o600 }
    step4KnownHosts w s3

/-! ### Module top level (github.py line 125)

The module ends with the bare call `setup_ssh_key_for_github()`.  The names
bound at module top level are the three imports and the single function
definition; `setup_ssh_key_for_github` is not among them, so executing the
module body raises `NameError` at line 125. -/

/-- Names bound at the top level of github.py: the imports `os`, `userdata`
(from `google.colab`), `subprocess`, and the function `secret_to_ssh_key`. -/
def moduleBoundNames : List String := ["os", "userdata", "subprocess", "secret_to_ssh_key"]

/-- The name called at module top level (github.py line 125). -/
def moduleFinalCall : String := "setup_ssh_key_for_github"

/-- Executing the module body: all definitions bind their names, then the
final statement resolves `moduleFinalCall`; an unbound name raises
`NameError`. -/
def importGithubModule : Except String Unit :=
  if moduleFinalCall ∈ moduleBoundNames then Except.ok () else
    Except.error "NameError: name 'setup_ssh_key_for_github' is not defined"

/-! ### Concrete fixtures -/

/-- Initial system state: nothing on disk, empty process environment. -/
def emptyState : SysState where
  files := fun _ => none
  fileMode := fun _ => none
  dirs := fun _ => false
  env := fun _ => none
  secretRequests := []
  keyscanInvoked := false
  keygenInvoked := false
  agentInvoked := false
  addInvoked := false

/-- A world in which every external interaction succeeds. -/
def okWorld : World where
  home := "/root"
  userdata := fun _ => Except.ok "KEYDATA"
  makedirsRaises := false
  keyWriteRaises := false
  chmodRaises := false
  knownHostsRaises := false
  keyscanStdout := "github.com ssh-ed25519 AAAA\n"
  keyscanOk := true
  configRaises := false
  keygenOk := true
  agentOk := true
  agentStdout := "SSH_AUTH_SOCK=/tmp/sock;export SSH_AUTH_SOCK;\nSSH_AGENT_PID=1234;"
  sshAddOk := true

-- Sanity: the happy path returns True.
example : (secret_to_ssh_key "id_rsa_github" okWorld emptyState).1 =
    Except.ok true := by rfl

/-- A world identical to `okWorld` except that `os.makedirs` raises. -/
def makedirsFailWorld : World := { okWorld with makedirsRaises := true }

/-- A world identical to `okWorld` except that the secrets provider returns
the empty string. -/
def emptySecretWorld : World := { okWorld with userdata := fun _ => Except.ok "" }

/-- The empty process environment. -/
def envNone : String → Option String := fun _ => none

/-- First agent-output line of the C8 scenario. -/
def agentLine1 : String := "SSH_AUTH_SOCK=/tmp/sock;export SSH_AUTH_SOCK;"

/-- Second agent-output line of the C8 scenario. -/
def agentLine2 : String := "SSH_AGENT_PID=1234;"

/-! ### Path distinctness and basic workflow lemmas -/

theorem append_left_cancel_char (a b c : List Char) (h : a ++ b = a ++ c) :
    b = c := by
  induction a with
  | nil => simpa using h
  | cons x xs ih => exact ih (by simpa using h)

theorem string_ext (s t : String) (h : s.data = t.data) : s = t := by
  cases s
  cases t
  exact congrArg String.mk h

theorem keyPath_ne_knownHostsPath (home : String) :
    keyPath home ≠ knownHostsPath home := by
  intro h
  have h2 : (sshDir home).data ++ "/id_rsa_github".data =
      (sshDir home).data ++ "/known_hosts".data := congrArg String.data h
  have h3 := append_left_cancel_char _ _ _ h2
  exact absurd h3 (by decide)

theorem keyPath_ne_configPath (home : String) :
    keyPath home ≠ configPath home := by
  intro h
  have h2 : (sshDir home).data ++ "/id_rsa_github".data =
      (sshDir home).data ++ "/config".data := congrArg String.data h
  have h3 := append_left_cancel_char _ _ _ h2
  exact absurd h3 (by decide)

theorem updF_ne {α : Type} (f : String → Option α) (k : String) (v : α)
    (x : String) (h : x ≠ k) : updF f k v x = f x := by
  simp [updF, h]

theorem updF_self {α : Type} (f : String → Option α) (k : String) (v : α) :
    updF f k v k = some v := by
  simp [updF]

/-- `clean_ssh_key` never returns the empty string: it always ends with a
newline, so the `if not github_ssh_key` guard at line 21 can never fire. -/
theorem clean_ssh_key_ne_empty (s : String) : clean_ssh_key s ≠ "" := by
  intro h
  have h2 := congrArg String.data h
  simp [clean_ssh_key] at h2

/-! Preservation lemmas: which parts of the state each step leaves alone. -/

theorem step7_preserves (w : World) (s : SysState) :
    (step7Agent w s).2.files = s.files ∧
    (step7Agent w s).2.fileMode = s.fileMode ∧
    (step7Agent w s).2.dirs = s.dirs ∧
    (step7Agent w s).2.secretRequests = s.secretRequests := by
  simp only [step7Agent]
  split_ifs <;> exact ⟨rfl, rfl, rfl, rfl⟩

theorem step6_preserves (w : World) (s : SysState) :
    (step6Keygen w s).2.files = s.files ∧
    (step6Keygen w s).2.fileMode = s.fileMode ∧
    (step6Keygen w s).2.dirs = s.dirs ∧
    (step6Keygen w s).2.secretRequests = s.secretRequests := by
  simp only [step6Keygen]
  split_ifs with h
  · exact step7_preserves w _
  · exact ⟨rfl, rfl, rfl, rfl⟩

theorem step5_preserves (w : World) (s : SysState) :
    (∀ p, p ≠ configPath w.home →
      (step5Config w s).2.files p = s.files p) ∧
    (step5Config w s).2.fileMode = s.fileMode ∧
    (step5Config w s).2.dirs = s.dirs ∧
    (step5Config w s).2.secretRequests = s.secretRequests := by
  simp only [step5Config]
  split
  · exact ⟨fun p _ => rfl, rfl, rfl, rfl⟩
  · split
    · -- marker already present: no write
      split
      · exact ⟨fun p _ => by rw [(step6_preserves w s).1], (step6_preserves w s).2.1,
          (step6_preserves w s).2.2.1, (step6_preserves w s).2.2.2⟩
      · refine ⟨fun p hp => ?_, (step6_preserves w _).2.1, (step6_preserves w _).2.2.1,
          (step6_preserves w _).2.2.2⟩
        rw [(step6_preserves w _).1]
        simp [updF, hp]
    · -- marker absent: stanza appended
      split
      · refine ⟨fun p hp => ?_, (step6_preserves w _).2.1, (step6_preserves w _).2.2.1,
          (step6_preserves w _).2.2.2⟩
        rw [(step6_preserves w _).1]
        simp [updF, hp]
      · refine ⟨fun p hp => ?_, (step6_preserves w _).2.1, (step6_preserves w _).2.2.1,
          (step6_preserves w _).2.2.2⟩
        rw [(step6_preserves w _).1]
        simp [updF, hp]

theorem step4_preserves (w : World) (s : SysState) :
    (∀ p, p ≠ knownHostsPath w.home → p ≠ configPath w.home →
      (step4KnownHosts w s).2.files p = s.files p) ∧
    (step4KnownHosts w s).2.fileMode = s.fileMode ∧
    (step4KnownHosts w s).2.dirs = s.dirs ∧
    (step4KnownHosts w s).2.secretRequests = s.secretRequests := by
  simp only [step4KnownHosts]
  split
  · exact ⟨fun p _ _ => rfl, rfl, rfl, rfl⟩
  · split
    · -- host already present: no scan
      split
      · exact ⟨fun p _ hp2 => (step5_preserves w _).1 p hp2, (step5_preserves w _).2.1,
          (step5_preserves w _).2.2.1, (step5_preserves w _).2.2.2⟩
      · refine ⟨fun p hp hp2 => ?_, (step5_preserves w _).2.1, (step5_preserves w _).2.2.1,
          (step5_preserves w _).2.2.2⟩
        rw [(step5_preserves w _).1 p hp2]
        simp [updF, hp]
    · -- host absent: scan output appended, then success/failure of the scan
      split
      · split
        · refine ⟨fun p hp hp2 => ?_, (step5_preserves w _).2.1, (step5_preserves w _).2.2.1,
            (step5_preserves w _).2.2.2⟩
          rw [(step5_preserves w _).1 p hp2]
          simp [updF, hp]
        · refine ⟨fun p hp hp2 => ?_, (step5_preserves w _).2.1, (step5_preserves w _).2.2.1,
            (step5_preserves w _).2.2.2⟩
          rw [(step5_preserves w _).1 p hp2]
          simp [updF, hp]
      · split
        · exact ⟨fun p hp _ => by simp [updF, hp], rfl, rfl, rfl⟩
        · exact ⟨fun p hp _ => by simp [updF, hp], rfl, rfl, rfl⟩

/-! ### Results of the steps are always booleans (the steps catch their own
errors) -/

theorem step7_returns_bool (w : World) (s : SysState) :
    ∃ b, (step7Agent w s).1 = Except.ok b := by
  simp only [step7Agent]
  split_ifs <;> exact ⟨_, rfl⟩

theorem step6_returns_bool (w : World) (s : SysState) :
    ∃ b, (step6Keygen w s).1 = Except.ok b := by
  simp only [step6Keygen]
  split
  · exact step7_returns_bool w _
  · exact ⟨false, rfl⟩

theorem step5_returns_bool (w : World) (s : SysState) :
    ∃ b, (step5Config w s).1 = Except.ok b := by
  simp only [step5Config]
  split
  · exact ⟨false, rfl⟩
  · exact step6_returns_bool w _

theorem step4_returns_bool (w : World) (s : SysState) :
    ∃ b, (step4KnownHosts w s).1 = Except.ok b := by
  simp only [step4KnownHosts]
  split
  · exact ⟨false, rfl⟩
  · split
    · exact step5_returns_bool w _
    · split
      · exact step5_returns_bool w _
      · exact ⟨false, rfl⟩

/-! ### Claim C1 -/

/-- C1 counterexample: with a valid secret but a failing `os.makedirs`
(github.py line 27, outside every `try` block), `secret_to_ssh_key` does not
return a boolean at all — the exception propagates to the caller. -/
theorem C1_counterexample_exception_propagates :
    (secret_to_ssh_key "id_rsa_github" makedirsFailWorld emptyState).1 =
      Except.error "OSError: makedirs" := by
  rfl

/-! The amended C1 theorem needs the step-4 normal form of the run and is
stated after that machinery, near the end of the file. -/

/-! ### Claim C2 -/

/-- C2 (code bug): when the secrets provider returns the empty string,
`clean_ssh_key` turns it into `"\n"`, which is truthy, so the emptiness
guard at line 21 never fires: the run creates the `.ssh` directory, writes a
key file containing just a newline, and (all utilities succeeding) returns
`True` — instead of returning `False` without touching the filesystem. -/
theorem C2_empty_secret_still_touches_filesystem :
    (secret_to_ssh_key "id_rsa_github" emptySecretWorld emptyState).1 =
      Except.ok true ∧
    (secret_to_ssh_key "id_rsa_github" emptySecretWorld emptyState).2.files
      (keyPath "/root") = some "\n" ∧
    (secret_to_ssh_key "id_rsa_github" emptySecretWorld emptyState).2.dirs
      (sshDir "/root") = true := by
  exact ⟨rfl, rfl, rfl⟩

/-! ### Claim C3 -/

/-- C3 counterexample: calling the operation with a caller-chosen secret
name still fetches the literal `'id_rsa_github'` (github.py line 14): the
provider request list records the fixed name, not the argument. -/
theorem C3_counterexample_secret_name_ignored :
    (secret_to_ssh_key "my_deploy_key" okWorld emptyState).2.secretRequests =
      ["id_rsa_github"] ∧ ("my_deploy_key" : String) ≠ "id_rsa_github" :=
  ⟨rfl, by decide⟩

/-- C3 amended: on every run, whatever `secret_name` argument is passed, the
single secrets-provider request made is for the fixed name
`'id_rsa_github'`. -/
theorem C3_amended_fetch_always_fixed_name (name : String) (w : World)
    (s : SysState) :
    (secret_to_ssh_key name w s).2.secretRequests =
      s.secretRequests ++ ["id_rsa_github"] := by
  rcases hu : w.userdata "id_rsa_github" with e | raw
  · simp [secret_to_ssh_key, hu]
  · simp only [secret_to_ssh_key, hu]
    by_cases hc : clean_ssh_key raw = ""
    · rw [if_pos hc]
    · rw [if_neg hc]
      by_cases hm : w.makedirsRaises = true
      · rw [if_pos hm]
      · rw [if_neg hm]
        by_cases hk : w.keyWriteRaises = true
        · rw [if_pos hk]
          split <;> rfl
        · rw [if_neg hk]
          by_cases hcm : w.chmodRaises = true
          · rw [if_pos hcm]
            split <;> rfl
          · rw [if_neg hcm]
            rw [(step4_preserves w _).2.2.2]
            split <;> rfl

/-! ### Claim C10 -/

/-- C10: the module's final top-level statement calls
`setup_ssh_key_for_github`, a name bound nowhere in the module (the
provisioning function is bound as `secret_to_ssh_key`), so executing the
module body raises a `NameError` before any caller can invoke the
provisioning operation. -/
theorem C10_module_calls_undefined_name :
    importGithubModule =
      Except.error "NameError: name 'setup_ssh_key_for_github' is not defined" ∧
    moduleFinalCall ∉ moduleBoundNames ∧
    "secret_to_ssh_key" ∈ moduleBoundNames := by
  refine ⟨?_, by decide, by decide⟩
  unfold importGithubModule
  rw [if_neg (by decide)]

/-! ### Claim C8 -/

/-- C8: parsing the agent output lines `SSH_AUTH_SOCK=/tmp/sock;export
SSH_AUTH_SOCK;` and `SSH_AGENT_PID=1234;` against an empty environment
yields exactly `SSH_AUTH_SOCK=/tmp/sock` and `SSH_AGENT_PID=1234` (every
other key is absent); and any line lacking `=` or `;` is skipped without
modifying the environment. -/
theorem C8_agent_parse_exact :
    (applyAgentLines envNone [agentLine1, agentLine2] "SSH_AUTH_SOCK" =
        some "/tmp/sock" ∧
      applyAgentLines envNone [agentLine1, agentLine2] "SSH_AGENT_PID" =
        some "1234" ∧
      ∀ k, k ≠ "SSH_AUTH_SOCK" → k ≠ "SSH_AGENT_PID" →
        applyAgentLines envNone [agentLine1, agentLine2] k = none) ∧
    ∀ env line, (strContains line "=" && strContains line ";") = false →
      applyAgentLine env line = env := by
  refine ⟨⟨by decide, by decide, ?_⟩, ?_⟩
  · intro k h1 h2
    have he : applyAgentLines envNone [agentLine1, agentLine2] k =
        updF (updF envNone "SSH_AUTH_SOCK" "/tmp/sock") "SSH_AGENT_PID" "1234" k :=
      rfl
    rw [he]
    simp only [updF]
    rw [if_neg h2, if_neg h1]
    rfl
  · intro env line h
    simp [applyAgentLine, h]

/-- C8 witness: the theorem applied at a concrete absent key and a concrete
separator-free line. -/
theorem C8_agent_parse_exact_witness :
    applyAgentLines envNone [agentLine1, agentLine2] "PATH" = none ∧
    applyAgentLine envNone "no separators here" = envNone :=
  ⟨C8_agent_parse_exact.1.2.2 "PATH" (by decide) (by decide),
   C8_agent_parse_exact.2 envNone "no separators here" (by decide)⟩

/-! ### The state after steps 1–3 on the success path -/

/-- The system state after the fetch, directory creation, key write and
chmod succeed with normalized key `key` (github.py lines 13–35). -/
def stateAfter3 (w : World) (s : SysState) (key : String) : SysState :=
  let s0 := { s with secretRequests := s.secretRequests ++ ["id_rsa_github"] }
  let s1 := if s0.dirs (sshDir w.home) then s0
    else { s0 with dirs := updB s0.dirs (sshDir w.home),
                   fileMode := updF s0.fileMode (sshDir w.home) 0o700 }
  let s2 := { s1 with files := updF s1.files (keyPath w.home) key }
  { s2 with fileMode := updF s2.fileMode (keyPath w.home) 0o600 }

/-- On the success path of steps 1–3 the whole run is step 4 applied to
`stateAfter3`. -/
theorem run_eq_step4 (name : String) (w : World) (s : SysState) (raw : String)
    (hu : w.userdata "id_rsa_github" = Except.ok raw)
    (h1 : w.makedirsRaises = false) (h2 : w.keyWriteRaises = false)
    (h3 : w.chmodRaises = false) :
    secret_to_ssh_key name w s =
      step4KnownHosts w (stateAfter3 w s (clean_ssh_key raw)) := by
  simp only [secret_to_ssh_key, hu, stateAfter3]
  rw [if_neg (clean_ssh_key_ne_empty raw)]
  simp only [h1, h2, h3, Bool.false_eq_true, if_false]

theorem stateAfter3_files_keyPath (w : World) (s : SysState) (key : String) :
    (stateAfter3 w s key).files (keyPath w.home) = some key := by
  simp only [stateAfter3]
  split <;> exact updF_self _ _ _

theorem stateAfter3_fileMode_keyPath (w : World) (s : SysState) (key : String) :
    (stateAfter3 w s key).fileMode (keyPath w.home) = some 0o600 := by
  simp only [stateAfter3]
  split <;> exact updF_self _ _ _

theorem stateAfter3_files_khPath (w : World) (s : SysState) (key : String) :
    (stateAfter3 w s key).files (knownHostsPath w.home) =
      s.files (knownHostsPath w.home) := by
  simp only [stateAfter3]
  split <;>
    · rw [updF_ne _ _ _ _ (Ne.symm (keyPath_ne_knownHostsPath w.home))]

theorem stateAfter3_files_configPath (w : World) (s : SysState) (key : String) :
    (stateAfter3 w s key).files (configPath w.home) =
      s.files (configPath w.home) := by
  simp only [stateAfter3]
  split <;>
    · rw [updF_ne _ _ _ _ (Ne.symm (keyPath_ne_configPath w.home))]

theorem stateAfter3_env (w : World) (s : SysState) (key : String) :
    (stateAfter3 w s key).env = s.env := by
  simp only [stateAfter3]
  split <;> rfl

theorem stateAfter3_agentInvoked (w : World) (s : SysState) (key : String) :
    (stateAfter3 w s key).agentInvoked = s.agentInvoked := by
  simp only [stateAfter3]
  split <;> rfl

theorem stateAfter3_addInvoked (w : World) (s : SysState) (key : String) :
    (stateAfter3 w s key).addInvoked = s.addInvoked := by
  simp only [stateAfter3]
  split <;> rfl

/-! ### Keygen failure cuts the pipeline before any agent step (for C7) -/

theorem step6_keygen_false (w : World) (s : SysState) (h : w.keygenOk = false) :
    (step6Keygen w s).1 = Except.ok false ∧
    (step6Keygen w s).2.env = s.env ∧
    (step6Keygen w s).2.agentInvoked = s.agentInvoked ∧
    (step6Keygen w s).2.addInvoked = s.addInvoked ∧
    (step6Keygen w s).2.keygenInvoked = true := by
  simp [step6Keygen, h]

theorem step5_keygen_false (w : World) (s : SysState)
    (h6 : w.configRaises = false) (h7 : w.keygenOk = false) :
    (step5Config w s).1 = Except.ok false ∧
    (step5Config w s).2.env = s.env ∧
    (step5Config w s).2.agentInvoked = s.agentInvoked ∧
    (step5Config w s).2.addInvoked = s.addInvoked ∧
    (step5Config w s).2.keygenInvoked = true := by
  simp only [step5Config, h6, Bool.false_eq_true, if_false]
  refine ⟨(step6_keygen_false w _ h7).1, ?_, ?_, ?_,
    (step6_keygen_false w _ h7).2.2.2.2⟩
  · rw [(step6_keygen_false w _ h7).2.1]
    split <;> split <;> rfl
  · rw [(step6_keygen_false w _ h7).2.2.1]
    split <;> split <;> rfl
  · rw [(step6_keygen_false w _ h7).2.2.2.1]
    split <;> split <;> rfl

theorem step4_keygen_false (w : World) (s : SysState)
    (h4 : w.knownHostsRaises = false)
    (h5 : strContains ((s.files (knownHostsPath w.home)).getD "") "github.com" = true ∨
      w.keyscanOk = true)
    (h6 : w.configRaises = false) (h7 : w.keygenOk = false) :
    (step4KnownHosts w s).1 = Except.ok false ∧
    (step4KnownHosts w s).2.env = s.env ∧
    (step4KnownHosts w s).2.agentInvoked = s.agentInvoked ∧
    (step4KnownHosts w s).2.addInvoked = s.addInvoked ∧
    (step4KnownHosts w s).2.keygenInvoked = true := by
  have hcg : strContains "" "github.com" = false := by decide
  simp only [step4KnownHosts, h4, Bool.false_eq_true, if_false]
  rcases hf : s.files (knownHostsPath w.home) with _ | kh
  · -- file absent: created empty, scan runs; h5 forces the scan to succeed
    rcases h5 with h5 | h5
    · rw [hf] at h5
      simp only [Option.getD_none, hcg] at h5
      exact absurd h5 (by decide)
    · simp only [hf, updF_self, Option.getD_some, hcg, Bool.false_eq_true, if_false,
        h5, if_true]
      refine ⟨(step5_keygen_false w _ h6 h7).1, ?_, ?_, ?_,
        (step5_keygen_false w _ h6 h7).2.2.2.2⟩
      · rw [(step5_keygen_false w _ h6 h7).2.1]
      · rw [(step5_keygen_false w _ h6 h7).2.2.1]
      · rw [(step5_keygen_false w _ h6 h7).2.2.2.1]
  · -- file present with contents kh
    by_cases hcont : strContains kh "github.com" = true
    · simp only [hf, Option.getD_some, hcont, if_true]
      exact step5_keygen_false w _ h6 h7
    · rcases h5 with h5 | h5
      · rw [hf] at h5
        simp only [Option.getD_some] at h5
        exact absurd h5 hcont
      · simp only [hf, Option.getD_some, hcont, Bool.false_eq_true, if_false,
          h5, if_true]
        refine ⟨(step5_keygen_false w _ h6 h7).1, ?_, ?_, ?_,
          (step5_keygen_false w _ h6 h7).2.2.2.2⟩
        · rw [(step5_keygen_false w _ h6 h7).2.1]
        · rw [(step5_keygen_false w _ h6 h7).2.2.1]
        · rw [(step5_keygen_false w _ h6 h7).2.2.2.1]

/-! ### Claim C9 -/

/-- C9: whenever the secrets fetch succeeds (and the three unguarded
filesystem primitives do not raise), the final state of the run — whatever
happens in the later steps — has exactly the normalized key bytes
`clean_ssh_key raw` at the fixed key path (any prior content replaced) and
file mode `0o600` on that path. -/
theorem C9_persist_writes_normalized_key (name : String) (w : World)
    (s : SysState) (raw : String)
    (hu : w.userdata "id_rsa_github" = Except.ok raw)
    (h1 : w.makedirsRaises = false) (h2 : w.keyWriteRaises = false)
    (h3 : w.chmodRaises = false) :
    (secret_to_ssh_key name w s).2.files (keyPath w.home) =
      some (clean_ssh_key raw) ∧
    (secret_to_ssh_key name w s).2.fileMode (keyPath w.home) = some 0o600 := by
  rw [run_eq_step4 name w s raw hu h1 h2 h3]
  constructor
  · rw [(step4_preserves w _).1 (keyPath w.home) (keyPath_ne_knownHostsPath w.home)
      (keyPath_ne_configPath w.home)]
    exact stateAfter3_files_keyPath w s _
  · rw [(step4_preserves w _).2.1]
    exact stateAfter3_fileMode_keyPath w s _

/-- C9 witness: concrete run with a prior key file on disk being replaced. -/
theorem C9_persist_writes_normalized_key_witness :
    (secret_to_ssh_key "id_rsa_github" okWorld
      { emptyState with files := updF emptyState.files (keyPath "/root") "OLD" }).2.files
      (keyPath "/root") = some (clean_ssh_key "KEYDATA") ∧
    (secret_to_ssh_key "id_rsa_github" okWorld
      { emptyState with files := updF emptyState.files (keyPath "/root") "OLD" }).2.fileMode
      (keyPath "/root") = some 0o600 :=
  C9_persist_writes_normalized_key "id_rsa_github" okWorld
    { emptyState with files := updF emptyState.files (keyPath "/root") "OLD" }
    "KEYDATA" rfl rfl rfl rfl

/-! ### Claim C7 -/

/-- C7: in every run that reaches the key-verification step and in which
`ssh-keygen` exits non-zero, the operation returns `False`, the environment
is unchanged, and neither `ssh-agent` nor `ssh-add` is invoked (while
`ssh-keygen` itself was invoked). -/
theorem C7_keygen_failure_stops_pipeline (name : String) (w : World)
    (s : SysState) (raw : String)
    (hu : w.userdata "id_rsa_github" = Except.ok raw)
    (h1 : w.makedirsRaises = false) (h2 : w.keyWriteRaises = false)
    (h3 : w.chmodRaises = false) (h4 : w.knownHostsRaises = false)
    (h5 : strContains ((s.files (knownHostsPath w.home)).getD "") "github.com" = true ∨
      w.keyscanOk = true)
    (h6 : w.configRaises = false) (h7 : w.keygenOk = false) :
    (secret_to_ssh_key name w s).1 = Except.ok false ∧
    (secret_to_ssh_key name w s).2.env = s.env ∧
    (secret_to_ssh_key name w s).2.agentInvoked = s.agentInvoked ∧
    (secret_to_ssh_key name w s).2.addInvoked = s.addInvoked ∧
    (secret_to_ssh_key name w s).2.keygenInvoked = true := by
  rw [run_eq_step4 name w s raw hu h1 h2 h3]
  have h5' : strContains (((stateAfter3 w s (clean_ssh_key raw)).files
      (knownHostsPath w.home)).getD "") "github.com" = true ∨
      w.keyscanOk = true := by
    rw [stateAfter3_files_khPath]
    exact h5
  refine ⟨(step4_keygen_false w _ h4 h5' h6 h7).1, ?_, ?_, ?_,
    (step4_keygen_false w _ h4 h5' h6 h7).2.2.2.2⟩
  · rw [(step4_keygen_false w _ h4 h5' h6 h7).2.1, stateAfter3_env]
  · rw [(step4_keygen_false w _ h4 h5' h6 h7).2.2.1, stateAfter3_agentInvoked]
  · rw [(step4_keygen_false w _ h4 h5' h6 h7).2.2.2.1, stateAfter3_addInvoked]

/-- A world identical to `okWorld` except that `ssh-keygen` exits
non-zero. -/
def keygenFailWorld : World := { okWorld with keygenOk := false }

/-- C7 witness: a concrete run in which only ssh-keygen fails. -/
theorem C7_keygen_failure_witness :
    (secret_to_ssh_key "id_rsa_github" keygenFailWorld emptyState).1 =
      Except.ok false ∧
    (secret_to_ssh_key "id_rsa_github" keygenFailWorld emptyState).2.env =
      emptyState.env ∧
    (secret_to_ssh_key "id_rsa_github" keygenFailWorld emptyState).2.agentInvoked =
      emptyState.agentInvoked ∧
    (secret_to_ssh_key "id_rsa_github" keygenFailWorld emptyState).2.addInvoked =
      emptyState.addInvoked ∧
    (secret_to_ssh_key "id_rsa_github" keygenFailWorld emptyState).2.keygenInvoked =
      true :=
  C7_keygen_failure_stops_pipeline "id_rsa_github" keygenFailWorld emptyState
    "KEYDATA" rfl rfl rfl rfl rfl (Or.inr rfl) rfl rfl

/-! ### Claim C6 -/

theorem step5_noop_files (w : World) (s : SysState) (cf : String)
    (hc : s.files (configPath w.home) = some cf)
    (hm : strContains cf "Host github.com" = true) :
    (step5Config w s).2.files = s.files := by
  simp only [step5Config]
  split
  · rfl
  · simp only [hc, Option.getD_some, hm, eq_self_iff_true, if_true]
    exact (step6_preserves w s).1

theorem step4_noop_files (w : World) (s : SysState) (kh cf : String)
    (hk : s.files (knownHostsPath w.home) = some kh)
    (hkm : strContains kh "github.com" = true)
    (hc : s.files (configPath w.home) = some cf)
    (hm : strContains cf "Host github.com" = true) :
    (step4KnownHosts w s).2.files = s.files := by
  simp only [step4KnownHosts]
  split
  · rfl
  · simp only [hk, Option.getD_some, hkm, eq_self_iff_true, if_true]
    exact step5_noop_files w s cf hc hm

/-- C6: when the known-hosts file already contains `github.com` and the
config file already contains the `Host github.com` marker, a run of the
operation leaves both files exactly as they were: no duplicate fingerprint
entry and no duplicate stanza is appended, on every path through the
workflow. -/
theorem C6_fully_configured_run_appends_nothing (name : String) (w : World)
    (s : SysState) (kh cf : String)
    (hk : s.files (knownHostsPath w.home) = some kh)
    (hkm : strContains kh "github.com" = true)
    (hc : s.files (configPath w.home) = some cf)
    (hm : strContains cf "Host github.com" = true) :
    (secret_to_ssh_key name w s).2.files (knownHostsPath w.home) = some kh ∧
    (secret_to_ssh_key name w s).2.files (configPath w.home) = some cf := by
  rcases hu : w.userdata "id_rsa_github" with e | raw
  · constructor <;> simp [secret_to_ssh_key, hu, hk, hc]
  · cases h1 : w.makedirsRaises with
    | true =>
      constructor <;>
        simp [secret_to_ssh_key, hu, h1, clean_ssh_key_ne_empty raw, hk, hc]
    | false =>
      cases h2 : w.keyWriteRaises with
      | true =>
        refine ⟨?_, ?_⟩
        · simp only [secret_to_ssh_key, hu, h1, h2, Bool.false_eq_true, if_false,
            eq_self_iff_true, if_true]
          rw [if_neg (clean_ssh_key_ne_empty raw)]
          split <;> exact hk
        · simp only [secret_to_ssh_key, hu, h1, h2, Bool.false_eq_true, if_false,
            eq_self_iff_true, if_true]
          rw [if_neg (clean_ssh_key_ne_empty raw)]
          split <;> exact hc
      | false =>
        cases h3 : w.chmodRaises with
        | true =>
          refine ⟨?_, ?_⟩
          · simp only [secret_to_ssh_key, hu, h1, h2, h3, Bool.false_eq_true,
              if_false, eq_self_iff_true, if_true]
            rw [if_neg (clean_ssh_key_ne_empty raw)]
            have hne := Ne.symm (keyPath_ne_knownHostsPath w.home)
            simp only [updF, hne, if_false]
            split <;> exact hk
          · simp only [secret_to_ssh_key, hu, h1, h2, h3, Bool.false_eq_true,
              if_false, eq_self_iff_true, if_true]
            rw [if_neg (clean_ssh_key_ne_empty raw)]
            have hne := Ne.symm (keyPath_ne_configPath w.home)
            simp only [updF, hne, if_false]
            split <;> exact hc
        | false =>
          rw [run_eq_step4 name w s raw hu h1 h2 h3]
          have hk3 : (stateAfter3 w s (clean_ssh_key raw)).files
              (knownHostsPath w.home) = some kh := by
            rw [stateAfter3_files_khPath]
            exact hk
          have hc3 : (stateAfter3 w s (clean_ssh_key raw)).files
              (configPath w.home) = some cf := by
            rw [stateAfter3_files_configPath]
            exact hc
          rw [step4_noop_files w _ kh cf hk3 hkm hc3 hm]
          exact ⟨hk3, hc3⟩

/-- A pre-existing known-hosts content mentioning github.com. -/
def knownHostsSeed : String := "github.com ssh-ed25519 AAAA"

/-- A pre-existing config content with the `Host github.com` marker. -/
def configSeed : String := "\nHost github.com\n    HostName github.com\n"

/-- A state in which github.com is already trusted and the config stanza is
already present. -/
def configuredState : SysState :=
  { emptyState with files := updF (updF emptyState.files (knownHostsPath "/root") knownHostsSeed) (configPath "/root") configSeed }

/-- C6 witness: a concrete fully-configured second run appends nothing. -/
theorem C6_fully_configured_witness :
    (secret_to_ssh_key "id_rsa_github" okWorld configuredState).2.files
      (knownHostsPath "/root") = some knownHostsSeed ∧
    (secret_to_ssh_key "id_rsa_github" okWorld configuredState).2.files
      (configPath "/root") = some configSeed :=
  C6_fully_configured_run_appends_nothing "id_rsa_github" okWorld configuredState
    knownHostsSeed configSeed (by decide) (by decide) (by decide) (by decide)

/-! ### Generic `dropWhile` lemmas used by the normalization proofs -/

theorem dwHeadNot {α : Type} (p : α → Bool) (l : List α) (c : α)
    (h : (l.dropWhile p).head? = some c) : p c = false := by
  have h2 := List.head?_dropWhile_not p l
  rw [h] at h2
  exact h2

theorem dwSelfOfHead {α : Type} (p : α → Bool) (l : List α)
    (h : ∀ c, l.head? = some c → p c = false) : l.dropWhile p = l := by
  cases l with
  | nil => rfl
  | cons a t =>
    rw [List.dropWhile_cons, if_neg]
    simp [h a rfl]

theorem dwLastOfNe {α : Type} (p : α → Bool) (l : List α)
    (h : l.dropWhile p ≠ []) : (l.dropWhile p).getLast? = l.getLast? := by
  induction l with
  | nil => rfl
  | cons a t ih =>
    rw [List.dropWhile_cons]
    by_cases hp : p a = true
    · rw [if_pos hp]
      rw [List.dropWhile_cons, if_pos hp] at h
      rw [ih h]
      cases t with
      | nil => simp [List.dropWhile] at h
      | cons b t2 => exact (List.getLast?_cons_cons).symm
    · rw [if_neg hp]

theorem dwAppendAll {α : Type} (p : α → Bool) (u v : List α)
    (h : ∀ c ∈ u, p c = true) : List.dropWhile p (u ++ v) = List.dropWhile p v := by
  induction u with
  | nil => rfl
  | cons a t ih =>
    rw [List.cons_append, List.dropWhile_cons, if_pos (h a (List.mem_cons_self a t))]
    exact ih fun c hc => h c (List.mem_cons_of_mem a hc)

theorem dwAppendNe {α : Type} (p : α → Bool) (u v : List α)
    (h : List.dropWhile p u ≠ []) :
    List.dropWhile p (u ++ v) = List.dropWhile p u ++ v := by
  induction u with
  | nil => exact absurd rfl h
  | cons a t ih =>
    rw [List.cons_append, List.dropWhile_cons, List.dropWhile_cons]
    by_cases hp : p a = true
    · rw [if_pos hp, if_pos hp]
      rw [List.dropWhile_cons, if_pos hp] at h
      exact ih h
    · rw [if_neg hp, if_neg hp, List.cons_append]

theorem dwNilOfAll {α : Type} (p : α → Bool) (l : List α)
    (h : ∀ c ∈ l, p c = true) : List.dropWhile p l = [] := by
  induction l with
  | nil => rfl
  | cons a t ih =>
    rw [List.dropWhile_cons, if_pos (h a (List.mem_cons_self a t))]
    exact ih fun c hc => h c (List.mem_cons_of_mem a hc)

theorem dwAllOfNil {α : Type} (p : α → Bool) (l : List α)
    (h : List.dropWhile p l = []) : ∀ c ∈ l, p c = true := by
  induction l with
  | nil => intro c hc; simp at hc
  | cons a t ih =>
    rw [List.dropWhile_cons] at h
    by_cases hp : p a = true
    · rw [if_pos hp] at h
      intro c hc
      rcases List.mem_cons.mp hc with hc | hc
      · rw [hc]; exact hp
      · exact ih h c hc
    · rw [if_neg hp] at h
      simp at h

/-! ### `strip` lemmas -/

theorem head_pyStrip (l : List Char) (c : Char)
    (h : (pyStrip l).head? = some c) : pyIsSpace c = false := by
  unfold pyStrip pyRStrip pyLStrip at h
  rw [List.head?_reverse] at h
  have hne : List.dropWhile pyIsSpace (List.dropWhile pyIsSpace l).reverse ≠ [] := by
    intro h0
    rw [h0] at h
    simp at h
  rw [dwLastOfNe _ _ hne, List.getLast?_reverse] at h
  exact dwHeadNot _ _ _ h

theorem last_pyStrip (l : List Char) (c : Char)
    (h : (pyStrip l).getLast? = some c) : pyIsSpace c = false := by
  unfold pyStrip pyRStrip pyLStrip at h
  rw [List.getLast?_reverse] at h
  exact dwHeadNot _ _ _ h

theorem pyStrip_eq_self (l : List Char)
    (h1 : ∀ c, l.head? = some c → pyIsSpace c = false)
    (h2 : ∀ c, l.getLast? = some c → pyIsSpace c = false) : pyStrip l = l := by
  unfold pyStrip pyRStrip pyLStrip
  rw [dwSelfOfHead _ _ h1, dwSelfOfHead, List.reverse_reverse]
  intro c hc
  rw [List.head?_reverse] at hc
  exact h2 c hc

theorem pyStrip_idem (l : List Char) : pyStrip (pyStrip l) = pyStrip l :=
  pyStrip_eq_self _ (head_pyStrip l) (last_pyStrip l)

theorem mem_of_mem_pyStrip (l : List Char) (c : Char) (h : c ∈ pyStrip l) :
    c ∈ l := by
  unfold pyStrip pyRStrip pyLStrip at h
  rw [List.mem_reverse] at h
  have h2 := (List.dropWhile_suffix (l := (List.dropWhile pyIsSpace l).reverse)
    pyIsSpace).sublist.subset h
  rw [List.mem_reverse] at h2
  exact (List.dropWhile_suffix pyIsSpace).sublist.subset h2

theorem lstrip_of_stripped (l : List Char) (h : pyStrip l = l) :
    List.dropWhile pyIsSpace l = l := by
  have hlen1 : (pyStrip l).length ≤ (List.dropWhile pyIsSpace l).length := by
    unfold pyStrip pyRStrip pyLStrip
    calc ((List.dropWhile pyIsSpace (List.dropWhile pyIsSpace l).reverse).reverse).length
        = (List.dropWhile pyIsSpace (List.dropWhile pyIsSpace l).reverse).length := by
          rw [List.length_reverse]
      _ ≤ ((List.dropWhile pyIsSpace l).reverse).length :=
          (List.dropWhile_suffix pyIsSpace).sublist.length_le
      _ = (List.dropWhile pyIsSpace l).length := by rw [List.length_reverse]
  have hlen2 : (List.dropWhile pyIsSpace l).length ≤ l.length :=
    (List.dropWhile_suffix pyIsSpace).sublist.length_le
  rw [h] at hlen1
  exact (List.dropWhile_suffix pyIsSpace).sublist.eq_of_length
    (Nat.le_antisymm hlen2 hlen1)

theorem rstrip_eq_self_of_stripped (l : List Char) (h : pyStrip l = l) :
    pyRStrip l = l := by
  have h0 := lstrip_of_stripped l h
  unfold pyStrip pyLStrip at h
  rw [h0] at h
  exact h

/-! ### `splitlines` lemmas -/

theorem splitlines_break_free_aux (n : Nat) : ∀ (l : List Char), l.length ≤ n →
    ∀ seg ∈ splitlines l, ∀ c ∈ seg, isLineBreak c = false := by
  induction n with
  | zero =>
    intro l hl seg hs
    have h0 : l = [] := List.eq_nil_of_length_eq_zero (Nat.le_zero.mp hl)
    subst h0
    simp [splitlines] at hs
  | succ n ih =>
    intro l hl
    match l with
    | [] =>
      intro seg hs
      simp [splitlines] at hs
    | [c] =>
      intro seg hs e he
      by_cases hb : isLineBreak c = true
      · simp only [splitlines, if_pos hb] at hs
        simp at hs
        subst hs
        simp at he
      · simp only [splitlines, if_neg hb] at hs
        simp at hs
        subst hs
        simp at he
        subst he
        simpa using hb
    | c :: d :: rest =>
      intro seg hs e he
      have hlr : rest.length ≤ n := by
        simp at hl
        omega
      have hldr : (d :: rest).length ≤ n := by
        simp at hl ⊢
        omega
      by_cases h1 : c = '\r' ∧ d = '\n'
      · simp only [splitlines, if_pos h1] at hs
        rcases List.mem_cons.mp hs with h | h
        · subst h
          simp at he
        · exact ih rest hlr seg h e he
      · by_cases h2 : isLineBreak c = true
        · simp only [splitlines, if_neg h1, if_pos h2] at hs
          rcases List.mem_cons.mp hs with h | h
          · subst h
            simp at he
          · exact ih (d :: rest) hldr seg h e he
        · simp only [splitlines, if_neg h1, if_neg h2] at hs
          rcases hsp : splitlines (d :: rest) with _ | ⟨m, ms⟩
          · rw [hsp] at hs
            simp at hs
            subst hs
            simp at he
            subst he
            simpa using h2
          · rw [hsp] at hs
            rcases List.mem_cons.mp hs with h | h
            · subst h
              rcases List.mem_cons.mp he with h3 | h3
              · subst h3
                simpa using h2
              · exact ih (d :: rest) hldr m (hsp ▸ List.mem_cons_self m ms) e h3
            · exact ih (d :: rest) hldr seg (hsp ▸ List.mem_cons_of_mem m h) e he

/-- Every segment produced by `splitlines` is free of line-break
characters. -/
theorem splitlines_break_free (l : List Char) (seg : List Char)
    (hs : seg ∈ splitlines l) (c : Char) (hc : c ∈ seg) :
    isLineBreak c = false :=
  splitlines_break_free_aux l.length l (Nat.le_refl _) seg hs c hc

theorem splitlines_break_cons (c : Char) (l : List Char)
    (hb : isLineBreak c = true) (hr : c ≠ '\r') :
    splitlines (c :: l) = [] :: splitlines l := by
  cases l with
  | nil =>
    simp only [splitlines, if_pos hb]
  | cons d rest =>
    simp only [splitlines]
    rw [if_neg (by rintro ⟨hcr, _⟩; exact hr hcr), if_pos hb]

theorem splitlines_nl (x : List Char) :
    splitlines ('\n' :: x) = [] :: splitlines x :=
  splitlines_break_cons '\n' x (by decide) (by decide)

theorem splitlines_cons_of_ne (c : Char) (l m : List Char) (ms : List (List Char))
    (hb : isLineBreak c = false) (hl : splitlines l = m :: ms) (hne : l ≠ []) :
    splitlines (c :: l) = (c :: m) :: ms := by
  have hr : c ≠ '\r' := by
    intro h
    rw [h] at hb
    exact absurd hb (by decide)
  cases l with
  | nil => exact absurd rfl hne
  | cons d rest =>
    simp only [splitlines]
    rw [if_neg (by rintro ⟨hcr, _⟩; exact hr hcr), if_neg (by simp [hb]), hl]

/-- `splitlines` undoes appending a line terminated by `\n` in front, for a
break-free line. -/
theorem splitlines_append_nl (t x : List Char)
    (h : ∀ c ∈ t, isLineBreak c = false) :
    splitlines (t ++ '\n' :: x) = t :: splitlines x := by
  induction t with
  | nil => simpa using splitlines_nl x
  | cons c t ih =>
    have hc : isLineBreak c = false := h c (List.mem_cons_self c t)
    have ih2 := ih fun d hd => h d (List.mem_cons_of_mem c hd)
    rw [List.cons_append]
    exact splitlines_cons_of_ne c _ t (splitlines x) hc ih2 (by simp)

/-- `splitlines` is a left inverse of `joinNL · ++ "\n"` on non-empty lists
of break-free lines. -/
theorem splitlines_joinNL (ts : List (List Char)) (hne : ts ≠ [])
    (h : ∀ t ∈ ts, ∀ c ∈ t, isLineBreak c = false) :
    splitlines (joinNL ts ++ ['\n']) = ts := by
  induction ts with
  | nil => exact absurd rfl hne
  | cons t ts ih =>
    cases ts with
    | nil =>
      simp only [joinNL]
      rw [show t ++ ['\n'] = t ++ '\n' :: ([] : List Char) from rfl]
      rw [splitlines_append_nl t [] (h t (List.mem_cons_self t []))]
      rfl
    | cons u ts2 =>
      simp only [joinNL]
      rw [List.append_assoc, List.cons_append]
      rw [splitlines_append_nl t _ (h t (List.mem_cons_self t (u :: ts2)))]
      rw [ih (by simp) fun v hv => h v (List.mem_cons_of_mem t hv)]

/-! ### `joinNL` and end-trimming lemmas -/

/-- Drop trailing empty lines. -/
def dropLastWhileEmpty (ts : List (List Char)) : List (List Char) :=
  ((ts.reverse).dropWhile List.isEmpty).reverse

/-- Drop leading and trailing empty lines. -/
def trimEnds (ts : List (List Char)) : List (List Char) :=
  dropLastWhileEmpty (ts.dropWhile List.isEmpty)

theorem joinNL_all_nl (ts : List (List Char)) (h : ∀ t ∈ ts, t = []) :
    ∀ c ∈ joinNL ts, c = '\n' := by
  induction ts with
  | nil => intro c hc; simp [joinNL] at hc
  | cons t ts ih =>
    cases ts with
    | nil =>
      intro c hc
      rw [h t (List.mem_cons_self t [])] at hc
      simp [joinNL] at hc
    | cons u ts2 =>
      intro c hc
      simp only [joinNL] at hc
      rw [h t (List.mem_cons_self t (u :: ts2))] at hc
      rw [List.nil_append] at hc
      rcases List.mem_cons.mp hc with h2 | h2
      · exact h2
      · exact ih (fun v hv => h v (List.mem_cons_of_mem t hv)) c h2

theorem joinNL_ne_nil (ts : List (List Char)) (t : List Char)
    (hlast : ts.getLast? = some t) (ht : t ≠ []) : joinNL ts ≠ [] := by
  cases ts with
  | nil => simp at hlast
  | cons a ts2 =>
    cases ts2 with
    | nil =>
      simp at hlast
      subst hlast
      simpa [joinNL] using ht
    | cons b ts3 =>
      simp [joinNL]

theorem getLast?_joinNL (ts : List (List Char)) (t : List Char)
    (hlast : ts.getLast? = some t) (ht : t ≠ []) :
    (joinNL ts).getLast? = t.getLast? := by
  induction ts with
  | nil => simp at hlast
  | cons a ts2 ih =>
    cases ts2 with
    | nil =>
      simp at hlast
      subst hlast
      rfl
    | cons b ts3 =>
      rw [List.getLast?_cons_cons] at hlast
      have hJ : joinNL (b :: ts3) ≠ [] := joinNL_ne_nil _ t hlast ht
      simp only [joinNL]
      rw [show ('\n' :: joinNL (b :: ts3)) = ['\n'] ++ joinNL (b :: ts3) from rfl]
      rw [← List.append_assoc]
      rw [List.getLast?_append_of_ne_nil _ hJ]
      exact ih hlast

theorem dlwe_nil_all (ts : List (List Char)) (h : dropLastWhileEmpty ts = []) :
    ∀ x ∈ ts, x = [] := by
  unfold dropLastWhileEmpty at h
  have h2 : List.dropWhile List.isEmpty ts.reverse = [] := by
    have := congrArg List.reverse h
    rwa [List.reverse_reverse] at this
  intro x hx
  have := dwAllOfNil _ _ h2 x (List.mem_reverse.mpr hx)
  exact List.isEmpty_iff.mp this

theorem dlwe_eq_nil (ts : List (List Char)) (h : ∀ x ∈ ts, x = []) :
    dropLastWhileEmpty ts = [] := by
  unfold dropLastWhileEmpty
  rw [dwNilOfAll]
  · rfl
  · intro x hx
    exact List.isEmpty_iff.mpr (h x (List.mem_reverse.mp hx))

theorem dlwe_cons_of_ne (t : List Char) (ts : List (List Char))
    (h : dropLastWhileEmpty ts ≠ []) :
    dropLastWhileEmpty (t :: ts) = t :: dropLastWhileEmpty ts := by
  unfold dropLastWhileEmpty at h ⊢
  have h2 : List.dropWhile List.isEmpty ts.reverse ≠ [] := by
    intro h0
    rw [h0] at h
    exact h rfl
  rw [List.reverse_cons, dwAppendNe _ _ _ h2, List.reverse_append]
  rfl

theorem dlwe_cons_all (t : List Char) (ts : List (List Char))
    (h : ∀ x ∈ ts, x = []) (ht : t ≠ []) :
    dropLastWhileEmpty (t :: ts) = [t] := by
  unfold dropLastWhileEmpty
  rw [List.reverse_cons, dwAppendAll]
  · rw [List.dropWhile_cons, if_neg]
    · rfl
    · simp [List.isEmpty_iff, ht]
  · intro x hx
    exact List.isEmpty_iff.mpr (h x (List.mem_reverse.mp hx))

theorem getLast?_dlwe (ts : List (List Char)) (h : dropLastWhileEmpty ts ≠ []) :
    ∃ w, (dropLastWhileEmpty ts).getLast? = some w ∧ w ≠ [] := by
  unfold dropLastWhileEmpty at h ⊢
  have h2 : List.dropWhile List.isEmpty ts.reverse ≠ [] := by
    intro h0
    rw [h0] at h
    exact h rfl
  rcases hw : (List.dropWhile List.isEmpty ts.reverse).head? with _ | w
  · rw [List.head?_eq_none_iff] at hw
    exact absurd hw h2
  · refine ⟨w, ?_, ?_⟩
    · rw [List.getLast?_reverse]
      exact hw
    · have := dwHeadNot _ _ _ hw
      intro h0
      rw [h0] at this
      simp at this

theorem mem_dlwe (ts : List (List Char)) (x : List Char)
    (h : x ∈ dropLastWhileEmpty ts) : x ∈ ts := by
  unfold dropLastWhileEmpty at h
  rw [List.mem_reverse] at h
  have := (List.dropWhile_suffix List.isEmpty).sublist.subset h
  exact List.mem_reverse.mp this

theorem mem_trimEnds (ts : List (List Char)) (x : List Char)
    (h : x ∈ trimEnds ts) : x ∈ ts := by
  unfold trimEnds at h
  exact (List.dropWhile_suffix List.isEmpty).sublist.subset (mem_dlwe _ _ h)

theorem head?_dlwe (ts : List (List Char)) (h : dropLastWhileEmpty ts ≠ []) :
    (dropLastWhileEmpty ts).head? = ts.head? := by
  obtain ⟨pre, hpre⟩ := List.dropWhile_suffix (l := ts.reverse) List.isEmpty
  have hts : ts = dropLastWhileEmpty ts ++ pre.reverse := by
    unfold dropLastWhileEmpty
    have := congrArg List.reverse hpre
    rw [List.reverse_append, List.reverse_reverse] at this
    exact this.symm
  conv_rhs => rw [hts]
  rw [List.head?_append_of_ne_nil _ h]

/-! ### Stripping a `"\n"`-join of stripped lines trims empty end lines -/

theorem lstrip_joinNL (ts : List (List Char)) (h : ∀ t ∈ ts, pyStrip t = t) :
    pyLStrip (joinNL ts) = joinNL (ts.dropWhile List.isEmpty) := by
  induction ts with
  | nil => rfl
  | cons t ts ih =>
    have hts := fun v hv => h v (List.mem_cons_of_mem t hv)
    have hstr := h t (List.mem_cons_self t ts)
    cases ts with
    | nil =>
      cases ht : t with
      | nil =>
        subst ht
        rfl
      | cons c t2 =>
        subst ht
        have hl : List.dropWhile pyIsSpace (c :: t2) = c :: t2 :=
          lstrip_of_stripped _ hstr
        simp only [joinNL, pyLStrip]
        rw [hl]
    | cons u ts2 =>
      cases ht : t with
      | nil =>
        subst ht
        simp only [joinNL, List.nil_append, pyLStrip, List.dropWhile_cons,
          if_pos (show pyIsSpace '\n' = true by decide)]
        rw [show List.dropWhile pyIsSpace (joinNL (u :: ts2)) =
          pyLStrip (joinNL (u :: ts2)) from rfl]
        rw [ih hts]
        simp [List.dropWhile_cons]
      | cons c t2 =>
        subst ht
        have hl : List.dropWhile pyIsSpace (c :: t2) = c :: t2 :=
          lstrip_of_stripped _ hstr
        have hc : pyIsSpace c = false := by
          refine dwHeadNot pyIsSpace (c :: t2) c ?_
          rw [hl]
          rfl
        simp only [joinNL, pyLStrip, List.cons_append]
        rw [List.dropWhile_cons, if_neg (by simp [hc])]

theorem rstrip_append_ws (a b : List Char) (h : ∀ c ∈ b, pyIsSpace c = true) :
    pyRStrip (a ++ b) = pyRStrip a := by
  unfold pyRStrip
  rw [List.reverse_append]
  rw [dwAppendAll _ _ _ fun c hc => h c (List.mem_reverse.mp hc)]

theorem rstrip_append_keep (a b : List Char) (h : pyRStrip b ≠ []) :
    pyRStrip (a ++ b) = a ++ pyRStrip b := by
  unfold pyRStrip at h ⊢
  have hb : List.dropWhile pyIsSpace b.reverse ≠ [] := by
    intro h0
    rw [h0] at h
    exact h rfl
  rw [List.reverse_append, dwAppendNe _ _ _ hb, List.reverse_append,
    List.reverse_reverse]

theorem rstrip_all_ws (b : List Char) (h : ∀ c ∈ b, pyIsSpace c = true) :
    pyRStrip b = [] := by
  unfold pyRStrip
  rw [dwNilOfAll _ _ fun c hc => h c (List.mem_reverse.mp hc)]
  rfl

theorem rstrip_joinNL (ts : List (List Char)) (h : ∀ t ∈ ts, pyStrip t = t) :
    pyRStrip (joinNL ts) = joinNL (dropLastWhileEmpty ts) := by
  induction ts with
  | nil => rfl
  | cons t ts ih =>
    have hts := fun v hv => h v (List.mem_cons_of_mem t hv)
    have hstr := h t (List.mem_cons_self t ts)
    cases ts with
    | nil =>
      cases ht : t with
      | nil =>
        subst ht
        rfl
      | cons c t2 =>
        subst ht
        have hre : pyRStrip (c :: t2) = c :: t2 :=
          rstrip_eq_self_of_stripped _ hstr
        simp only [joinNL]
        rw [hre]
    | cons u ts2 =>
      by_cases hall : dropLastWhileEmpty (u :: ts2) = []
      · have hmem := dlwe_nil_all _ hall
        have hws : ∀ c ∈ ('\n' :: joinNL (u :: ts2)), pyIsSpace c = true := by
          intro c hc
          rcases List.mem_cons.mp hc with h2 | h2
          · rw [h2]; decide
          · rw [joinNL_all_nl (u :: ts2) hmem c h2]; decide
        simp only [joinNL]
        rw [rstrip_append_ws t _ hws, rstrip_eq_self_of_stripped t hstr]
        cases ht : t with
        | nil =>
          subst ht
          rw [dlwe_eq_nil]
          · rfl
          · intro x hx
            rcases List.mem_cons.mp hx with h2 | h2
            · rw [h2]
            · exact hmem x h2
        | cons c t2 =>
          subst ht
          rw [dlwe_cons_all _ _ hmem (by simp)]
          rfl
      · have hJ := ih hts
        obtain ⟨w, hw, hwne⟩ := getLast?_dlwe (u :: ts2) hall
        have hJne : joinNL (dropLastWhileEmpty (u :: ts2)) ≠ [] :=
          joinNL_ne_nil _ w hw hwne
        have hbne : pyRStrip ('\n' :: joinNL (u :: ts2)) ≠ [] := by
          rw [show ('\n' :: joinNL (u :: ts2)) = ['\n'] ++ joinNL (u :: ts2) from rfl]
          rw [rstrip_append_keep ['\n'] _ (by rw [hJ]; exact hJne)]
          simp
        simp only [joinNL]
        rw [rstrip_append_keep t _ hbne]
        rw [show ('\n' :: joinNL (u :: ts2)) = ['\n'] ++ joinNL (u :: ts2) from rfl]
        rw [rstrip_append_keep ['\n'] _ (by rw [hJ]; exact hJne), hJ]
        rw [dlwe_cons_of_ne t _ hall]
        rcases hD : dropLastWhileEmpty (u :: ts2) with _ | ⟨v, vs⟩
        · exact absurd hD hall
        · simp [joinNL]

/-- Stripping the `"\n"`-join of already-stripped lines drops exactly the
leading and trailing empty lines. -/
theorem pyStrip_joinNL (ts : List (List Char)) (h : ∀ t ∈ ts, pyStrip t = t) :
    pyStrip (joinNL ts) = joinNL (trimEnds ts) := by
  unfold pyStrip trimEnds
  rw [lstrip_joinNL ts h]
  exact rstrip_joinNL _ fun t ht =>
    h t ((List.dropWhile_suffix List.isEmpty).sublist.subset ht)

/-! ### Normalization: the C4 and C5 claims -/

/-- The per-line-stripped lines of a string: the list comprehension
`[l.strip() for l in s.splitlines()]` inside `clean_ssh_key`. -/
def cleanLines (l : List Char) : List (List Char) := (splitlines l).map pyStrip

theorem cleanLines_stripped (l : List Char) :
    ∀ t ∈ cleanLines l, pyStrip t = t := by
  intro t ht
  rcases List.mem_map.mp ht with ⟨a, _, rfl⟩
  exact pyStrip_idem a

theorem cleanLines_break_free (l : List Char) :
    ∀ t ∈ cleanLines l, ∀ c ∈ t, isLineBreak c = false := by
  intro t ht c hc
  rcases List.mem_map.mp ht with ⟨a, ha, rfl⟩
  exact splitlines_break_free l a ha c (mem_of_mem_pyStrip a c hc)

theorem clean_ssh_key_data (s : String) :
    (clean_ssh_key s).data = pyStrip (joinNL (cleanLines s.data)) ++ ['\n'] := rfl

theorem mem_of_head? {α : Type} (l : List α) (a : α) (h : l.head? = some a) :
    a ∈ l := by
  cases l with
  | nil => simp at h
  | cons c t =>
    simp at h
    subst h
    exact List.mem_cons_self c t

theorem mem_of_getLast? {α : Type} (l : List α) (a : α)
    (h : l.getLast? = some a) : a ∈ l := by
  have h2 : l.reverse.head? = some a := by
    rw [List.head?_reverse]
    exact h
  exact List.mem_reverse.mp (mem_of_head? _ _ h2)

theorem trimEnds_head_ne (ts : List (List Char)) (h : trimEnds ts ≠ []) :
    ∀ t, (trimEnds ts).head? = some t → t ≠ [] := by
  intro t ht
  unfold trimEnds at h ht
  rw [head?_dlwe _ h] at ht
  have h2 := dwHeadNot _ _ _ ht
  intro h0
  rw [h0] at h2
  simp at h2

theorem trimEnds_last_ne (ts : List (List Char)) (h : trimEnds ts ≠ []) :
    ∀ t, (trimEnds ts).getLast? = some t → t ≠ [] := by
  intro t ht
  unfold trimEnds at h ht
  obtain ⟨w, hw, hwne⟩ := getLast?_dlwe _ h
  rw [ht] at hw
  injection hw with h2
  rw [h2]
  exact hwne

theorem trimEnds_eq_self (ts : List (List Char))
    (hh : ∀ t, ts.head? = some t → t ≠ [])
    (hl : ∀ t, ts.getLast? = some t → t ≠ []) : trimEnds ts = ts := by
  unfold trimEnds
  have h1 : ts.dropWhile List.isEmpty = ts := by
    apply dwSelfOfHead
    intro t ht
    simp [List.isEmpty_iff, hh t ht]
  rw [h1]
  unfold dropLastWhileEmpty
  have h2 : ts.reverse.dropWhile List.isEmpty = ts.reverse := by
    apply dwSelfOfHead
    intro t ht
    rw [List.head?_reverse] at ht
    simp [List.isEmpty_iff, hl t ht]
  rw [h2, List.reverse_reverse]

/-- C5: `clean_ssh_key` is idempotent: normalizing twice yields the same
string as normalizing once, for every input string. -/
theorem clean_ssh_key_idempotent (s : String) :
    clean_ssh_key (clean_ssh_key s) = clean_ssh_key s := by
  have hstr := cleanLines_stripped s.data
  have hbf := cleanLines_break_free s.data
  have hG : pyStrip (joinNL (cleanLines s.data)) =
      joinNL (trimEnds (cleanLines s.data)) := pyStrip_joinNL _ hstr
  by_cases hus : trimEnds (cleanLines s.data) = []
  · have h1 : clean_ssh_key s = "\n" := by
      apply string_ext
      rw [clean_ssh_key_data, hG, hus]
      rfl
    rw [h1]
    decide
  · have husstr : ∀ t ∈ trimEnds (cleanLines s.data), pyStrip t = t :=
      fun t ht => hstr t (mem_trimEnds _ t ht)
    have husbf : ∀ t ∈ trimEnds (cleanLines s.data), ∀ c ∈ t,
        isLineBreak c = false :=
      fun t ht => hbf t (mem_trimEnds _ t ht)
    have hdata : (clean_ssh_key s).data =
        joinNL (trimEnds (cleanLines s.data)) ++ ['\n'] := by
      rw [clean_ssh_key_data, hG]
    have hsplit : splitlines (clean_ssh_key s).data =
        trimEnds (cleanLines s.data) := by
      rw [hdata]
      exact splitlines_joinNL _ hus husbf
    have hmap : cleanLines (clean_ssh_key s).data =
        trimEnds (cleanLines s.data) := by
      show (splitlines (clean_ssh_key s).data).map pyStrip =
        trimEnds (cleanLines s.data)
      rw [hsplit]
      conv_rhs => rw [← List.map_id (trimEnds (cleanLines s.data))]
      exact List.map_congr_left husstr
    apply string_ext
    rw [clean_ssh_key_data, hmap, pyStrip_joinNL _ husstr,
      trimEnds_eq_self _ (trimEnds_head_ne _ hus) (trimEnds_last_ne _ hus), hdata]

/-- The C4 counterexample input: a whitespace-only first line and no
trailing newline. -/
def cx4 : String := " \nkey"

/-- C4 counterexample: for the input `" \nkey"` (mixed whitespace, no
trailing newline) the normalized string's line sequence is `["key"]`, not
the per-line-trimmed original `["", "key"]`: the final global `.strip()` of
`clean_ssh_key` deletes the leading whitespace-only line, so normalization
is not lossless. -/
theorem C4_counterexample_lossy_normalization :
    strSplitlines (clean_ssh_key cx4) ≠ (strSplitlines cx4).map strStrip ∧
    cx4.data.getLast? ≠ some '\n' := by
  decide

/-- C4 amended: for every input whose per-line-trimmed line sequence is
non-empty and has non-empty first and last lines (no leading or trailing
whitespace-only lines) and which has no trailing newline, normalization is
lossless — the lines of the normalized string are exactly the per-line
trimmed original lines — and the result ends in exactly one trailing
newline. -/
theorem C4_amended_normalization_lossless (s : String)
    (hne : cleanLines s.data ≠ [])
    (hh : (cleanLines s.data).head? ≠ some [])
    (hl : (cleanLines s.data).getLast? ≠ some [])
    (ht : s.data.getLast? ≠ some '\n') :
    splitlines (clean_ssh_key s).data = cleanLines s.data ∧
    (clean_ssh_key s).data.getLast? = some '\n' ∧
    (clean_ssh_key s).data.dropLast.getLast? ≠ some '\n' := by
  have hstr := cleanLines_stripped s.data
  have hbf := cleanLines_break_free s.data
  have htrim : trimEnds (cleanLines s.data) = cleanLines s.data := by
    refine trimEnds_eq_self _ (fun t h2 => ?_) (fun t h2 => ?_)
    · intro h0
      rw [h0] at h2
      exact hh h2
    · intro h0
      rw [h0] at h2
      exact hl h2
  have hdata : (clean_ssh_key s).data = joinNL (cleanLines s.data) ++ ['\n'] := by
    rw [clean_ssh_key_data, pyStrip_joinNL _ hstr, htrim]
  refine ⟨?_, ?_, ?_⟩
  · rw [hdata]
    exact splitlines_joinNL _ hne hbf
  · rw [hdata]
    exact List.getLast?_concat _
  · rw [hdata, List.dropLast_concat]
    rcases hlast : (cleanLines s.data).getLast? with _ | t
    · rw [List.getLast?_eq_none_iff] at hlast
      exact absurd hlast hne
    · have htne : t ≠ [] := by
        intro h0
        rw [h0] at hlast
        exact hl hlast
      rw [getLast?_joinNL _ t hlast htne]
      rcases hlt : t.getLast? with _ | c
      · rw [List.getLast?_eq_none_iff] at hlt
        exact absurd hlt htne
      · have hstr_t : pyStrip t = t := hstr t (mem_of_getLast? _ _ hlast)
        have hsp : pyIsSpace c = false := by
          refine last_pyStrip t c ?_
          rw [hstr_t]
          exact hlt
        intro h0
        injection h0 with h0
        rw [h0] at hsp
        exact absurd hsp (by decide)

/-- C4 amended, witness: a concrete two-line input with per-line whitespace
and no trailing newline normalizes losslessly with exactly one final
newline. -/
theorem C4_amended_normalization_witness :
    splitlines (clean_ssh_key "  line one  \n line2").data =
      cleanLines "  line one  \n line2".data ∧
    (clean_ssh_key "  line one  \n line2").data.getLast? = some '\n' ∧
    (clean_ssh_key "  line one  \n line2").data.dropLast.getLast? ≠ some '\n' :=
  C4_amended_normalization_lossless "  line one  \n line2"
    (by decide) (by decide) (by decide) (by decide)

/-! ### Claim C1: boolean outcome with `False` exactly on a caught failure -/

/-- Whether the secrets-provider call succeeded. -/
def fetchOk (r : Except String String) : Bool :=
  match r with
  | Except.ok _ => true
  | Except.error _ => false

/-- The success condition of a run, read off the source's control flow: the
fetch succeeds, the known-hosts block does not raise, the host is already
trusted or the scan succeeds, the config block does not raise, and
ssh-keygen, ssh-agent and ssh-add all succeed.  (The line-21 emptiness
guard never fires, `clean_ssh_key` being never empty.) -/
def runSucceeds (w : World) (s : SysState) : Bool :=
  fetchOk (w.userdata "id_rsa_github") && !w.knownHostsRaises &&
  (strContains ((s.files (knownHostsPath w.home)).getD "") "github.com" ||
    w.keyscanOk) &&
  !w.configRaises && w.keygenOk && w.agentOk && w.sshAddOk

theorem step7_result (w : World) (s : SysState) :
    ∃ b, (step7Agent w s).1 = Except.ok b ∧
      (b = true ↔ (w.agentOk && w.sshAddOk) = true) := by
  simp only [step7Agent]
  split_ifs with h1 h2
  · exact ⟨true, rfl, by simp [h1, h2]⟩
  · exact ⟨false, rfl, by simp [h1, h2]⟩
  · exact ⟨false, rfl, by simp [h1]⟩

theorem step6_result (w : World) (s : SysState) :
    ∃ b, (step6Keygen w s).1 = Except.ok b ∧
      (b = true ↔ (w.keygenOk && w.agentOk && w.sshAddOk) = true) := by
  simp only [step6Keygen]
  split_ifs with h
  · obtain ⟨b, hb, hiff⟩ := step7_result w _
    refine ⟨b, hb, ?_⟩
    rw [hiff]
    simp [h]
  · exact ⟨false, rfl, by simp [h]⟩

theorem step5_result (w : World) (s : SysState) :
    ∃ b, (step5Config w s).1 = Except.ok b ∧
      (b = true ↔ (!w.configRaises && w.keygenOk && w.agentOk &&
        w.sshAddOk) = true) := by
  simp only [step5Config]
  split_ifs with h
  · exact ⟨false, rfl, by simp [h]⟩
  all_goals
    obtain ⟨b, hb, hiff⟩ := step6_result w _
    refine ⟨b, hb, ?_⟩
    rw [hiff]
    simp [h]

theorem step4_result (w : World) (s : SysState) :
    ∃ b, (step4KnownHosts w s).1 = Except.ok b ∧
      (b = true ↔ (!w.knownHostsRaises &&
        (strContains ((s.files (knownHostsPath w.home)).getD "") "github.com" ||
          w.keyscanOk) &&
        !w.configRaises && w.keygenOk && w.agentOk && w.sshAddOk) = true) := by
  have hcg : strContains "" "github.com" = false := by decide
  by_cases h : w.knownHostsRaises = true
  · refine ⟨false, ?_, ?_⟩
    · simp [step4KnownHosts, h]
    · simp [h]
  · rcases hf : s.files (knownHostsPath w.home) with _ | kh
    · simp only [step4KnownHosts, h, Bool.false_eq_true, if_false, hf,
        updF_self, Option.getD_some, Option.getD_none, hcg]
      by_cases hks : w.keyscanOk = true
      · rw [if_pos hks]
        obtain ⟨b, hb, hiff⟩ := step5_result w _
        refine ⟨b, hb, ?_⟩
        rw [hiff]
        simp [h, hks, hcg, hf]
      · rw [if_neg hks]
        refine ⟨false, rfl, ?_⟩
        simp [h, hks, hcg, hf]
    · simp only [step4KnownHosts, h, Bool.false_eq_true, if_false, hf,
        Option.getD_some]
      by_cases hcont : strContains kh "github.com" = true
      · rw [if_pos hcont]
        obtain ⟨b, hb, hiff⟩ := step5_result w _
        refine ⟨b, hb, ?_⟩
        rw [hiff]
        simp [h, hcont, hf]
      · rw [if_neg hcont]
        by_cases hks : w.keyscanOk = true
        · rw [if_pos hks]
          obtain ⟨b, hb, hiff⟩ := step5_result w _
          refine ⟨b, hb, ?_⟩
          rw [hiff]
          simp [h, hcont, hks, hf]
        · rw [if_neg hks]
          refine ⟨false, rfl, ?_⟩
          simp [h, hcont, hks, hf]

/-- C1 amended: provided the three unguarded filesystem primitives
(`os.makedirs`, the key-file write at lines 31–32, `os.chmod` at line 35) do
not raise, every run of `secret_to_ssh_key` returns a boolean — no
exception reaches the caller — and that boolean is `True` exactly when
every step succeeded: any caught internal failure (secrets provider,
known-hosts block, host-key scan, config block, ssh-keygen, ssh-agent,
ssh-add) is converted into the boolean `False`. -/
theorem C1_amended_boolean_outcome (name : String) (w : World) (s : SysState)
    (h1 : w.makedirsRaises = false) (h2 : w.keyWriteRaises = false)
    (h3 : w.chmodRaises = false) :
    ∃ b, (secret_to_ssh_key name w s).1 = Except.ok b ∧
      (b = true ↔ runSucceeds w s = true) := by
  rcases hu : w.userdata "id_rsa_github" with e | raw
  · refine ⟨false, ?_, ?_⟩
    · simp [secret_to_ssh_key, hu]
    · simp [runSucceeds, fetchOk, hu]
  · rw [run_eq_step4 name w s raw hu h1 h2 h3]
    obtain ⟨b, hb, hiff⟩ := step4_result w (stateAfter3 w s (clean_ssh_key raw))
    refine ⟨b, hb, ?_⟩
    rw [hiff, stateAfter3_files_khPath]
    simp [runSucceeds, fetchOk, hu, Bool.and_assoc]

/-- C1 amended, witness: the theorem applied at a concrete world in which
only ssh-keygen fails, forcing the boolean outcome `False`. -/
theorem C1_amended_boolean_outcome_witness :
    ∃ b, (secret_to_ssh_key "id_rsa_github" keygenFailWorld emptyState).1 =
        Except.ok b ∧
      (b = true ↔ runSucceeds keygenFailWorld emptyState = true) :=
  C1_amended_boolean_outcome "id_rsa_github" keygenFailWorld emptyState
    rfl rfl rfl

-- Sanity: the success condition evaluates as expected on the fixtures.
example : runSucceeds okWorld emptyState = true := by decide
example : runSucceeds keygenFailWorld emptyState = false := by decide
example : runSucceeds emptySecretWorld emptyState = true := by decide
